import Mathlib

/-!
A verification development for the Home Assistant integration loader
(homeassistant/loader.py): manifests, the Integration record, the recursive
dependency resolver with cycle detection, the batch registry lookup
(async_get_integrations), the per-root manifest resolution with its version
gate, and the zeroconf matcher backwards-compat migration.

Machine-level conventions of the embedding:
* Python dicts keyed by strings are modelled either as functions
  String -> Option _ (for the process-wide caches) or as association lists
  (for the zeroconf matcher entries, whose concrete contents matter).
* The awaited coroutines are sequentialized: one call of
  async_get_integrations is modelled as a pure state transformer whose
  environment supplies the outcomes of the awaited sub-operations
  (custom-component enumeration, builtin-root resolution, and the cache
  contents observed after awaiting another task's in-flight event).
* The recursive dependency traversal carries a fuel parameter; the Python
  recursion terminates on every input because the loaded set only grows, so
  every run of the source corresponds to a sufficiently fuelled run here.
  Fuel exhaustion is a distinguished error value that no theorem below
  identifies with a behaviour of the source.
* The external versioning utility (AwesomeVersion with the five
  ensure-strategies) is an environment parameter versionOk : String -> Bool.
-/

/-! ## Manifest and Integration (loader.py lines 121-153, 412-655) -/

/-- The manifest TypedDict (the fields the claims need). Optional scalar
fields are Option; the list fields are read in the source only through
.get(key, default-empty-list), so an absent list and an empty list are
observationally identical and both are modelled as the empty list. -/
structure Manifest where
  domain : String
  name : String
  dependencies : List String
  after_dependencies : List String
  requirements : List String
  config_flow : Option Bool
  version : Option String
  is_built_in : Option Bool
deriving DecidableEq, Repr

def PACKAGE_BUILTIN : String := "homeassistant.components"

/-- Python str.startswith on the character-list model of strings (the
builtin String.startsWith has the same semantics but does not reduce in the
kernel). -/
def strStartsWith (s pre : String) : Bool := pre.data.isPrefixOf s.data

/-- The Integration record: package path, file path and the manifest. -/
structure Integration where
  pkg_path : String
  file_path : String
  manifest : Manifest
deriving DecidableEq, Repr

/-- Property Integration.domain. -/
def Integration.domain (i : Integration) : String := i.manifest.domain

/-- Property Integration.dependencies (manifest.get("dependencies", [])). -/
def Integration.dependencies (i : Integration) : List String :=
  i.manifest.dependencies

/-- Property Integration.after_dependencies. -/
def Integration.after_dependencies (i : Integration) : List String :=
  i.manifest.after_dependencies

/-- Property Integration.is_built_in: pkg_path.startswith(PACKAGE_BUILTIN). -/
def Integration.is_built_in (i : Integration) : Bool :=
  strStartsWith i.pkg_path PACKAGE_BUILTIN

/-- Property Integration.version: None when the manifest has no version key,
otherwise the (externally parsed) version string. -/
def Integration.version (i : Integration) : Option String :=
  i.manifest.version

/-- The lazily-computed dependency-closure fields of an Integration:
_all_dependencies_resolved and _all_dependencies. -/
structure DepState where
  resolved : Option Bool
  allDeps : Option (Finset String)
deriving DecidableEq

/-- Integration.__init__: stores pkg_path, file_path and the manifest, then
executes manifest["is_built_in"] = self.is_built_in (a write into the
manifest), and initializes the dependency-closure fields: trivially resolved
when the dependency list is empty, unresolved otherwise. -/
def Integration.init (pkg_path file_path : String) (manifest : Manifest) :
    Integration × DepState :=
  let m : Manifest :=
    { manifest with is_built_in := some (strStartsWith pkg_path PACKAGE_BUILTIN) }
  let i : Integration := { pkg_path := pkg_path, file_path := file_path, manifest := m }
  (i,
    if m.dependencies.isEmpty then
      { resolved := some true, allDeps := some ∅ }
    else
      { resolved := none, allDeps := none })

/-! ## The dependency resolver (loader.py lines 627-655, 949-989) -/

/-- The loader errors raised during dependency resolution, plus the
fuel-exhaustion marker of the embedding. -/
inductive DepError
  | notFound (domain : String)
  | circular (fromDomain toDomain : String)
  | fuelExhausted
deriving DecidableEq, Repr

/-- The loop body of _async_component_dependencies, with the recursive call
inlined. Parameters: the registry view env (what async_get_integration
returns per domain, None meaning it raises IntegrationNotFound), the
original start domain, fuel, the current integration's domain, the remaining
direct dependencies to visit, and the mutable sets loaded and loading
(loading already contains the current domain). The inlined recursive call
adds the dependency's own manifest domain to loading on entry, to loaded on
normal exit, and restores loading afterwards, exactly as the source does. -/
def depsGo (env : String → Option Integration) (start : String) :
    Nat → String → List String → Finset String → Finset String →
      Except DepError (Finset String)
  | 0, _, _, _, _ => .error .fuelExhausted
  | fuel + 1, domain, deps, loaded, loading =>
    match deps with
    | [] => .ok loaded
    | d :: rest =>
      if d ∈ loaded then
        depsGo env start fuel domain rest loaded loading
      else if d ∈ loading then
        .error (.circular domain d)
      else
        match env d with
        | none => .error (.notFound d)
        | some p =>
          if start ∈ p.manifest.after_dependencies then
            .error (.circular start d)
          else if p.manifest.dependencies.isEmpty then
            depsGo env start fuel domain rest (insert d loaded) loading
          else
            match depsGo env start fuel p.manifest.domain p.manifest.dependencies
                (insert d loaded) (insert p.manifest.domain loading) with
            | .error e => .error e
            | .ok l₂ =>
              depsGo env start fuel domain rest (insert p.manifest.domain l₂) loading

/-- _async_component_dependencies(hass, self.domain, self, set(), set()):
the top-level traversal adds the root to loading on entry and to the
returned loaded set on exit. -/
def componentDependencies (env : String → Option Integration) (fuel : Nat)
    (i : Integration) : Except DepError (Finset String) :=
  match depsGo env i.domain fuel i.domain i.dependencies ∅ {i.domain} with
  | .error e => .error e
  | .ok s => .ok (insert i.domain s)

/-- Integration.resolve_dependencies: memo-hit on _all_dependencies_resolved,
otherwise run the traversal, discard the root's own domain from the result
on success, and record the terminal boolean (leaving _all_dependencies
untouched on failure). -/
def Integration.resolve_dependencies (env : String → Option Integration)
    (fuel : Nat) (i : Integration) (st : DepState) : Bool × DepState :=
  match st.resolved with
  | some b => (b, st)
  | none =>
    match componentDependencies env fuel i with
    | .ok deps =>
      (true, { resolved := some true, allDeps := some (deps.erase i.domain) })
    | .error _ => (false, { resolved := some false, allDeps := st.allDeps })

/-- A hard-dependency edge of the registry view: domain a resolves to a
plugin whose manifest lists b among its dependencies. -/
def DepEdge (env : String → Option Integration) (a b : String) : Prop :=
  ∃ p, env a = some p ∧ b ∈ p.manifest.dependencies

/-! ## Claim theorems: memoization (C6) and manifest mutation (C9) -/

/-- Claim C6: dependency resolution is idempotent and memoized. After any
call of resolve_dependencies completes, the outcome boolean is recorded in
the state, and every subsequent call — under any registry view and any fuel,
hence without recomputing the traversal or fetching any plugin — returns the
identical boolean and leaves the state unchanged; in particular a failure
outcome is terminal. -/
theorem resolve_dependencies_memoized
    (env env' : String → Option Integration) (fuel fuel' : Nat)
    (i : Integration) (st : DepState) :
    (Integration.resolve_dependencies env fuel i st).2.resolved =
        some (Integration.resolve_dependencies env fuel i st).1 ∧
      Integration.resolve_dependencies env' fuel' i
          (Integration.resolve_dependencies env fuel i st).2 =
        Integration.resolve_dependencies env fuel i st := by
  unfold Integration.resolve_dependencies
  cases h : st.resolved with
  | some b => simp [h]
  | none =>
    cases hc : componentDependencies env fuel i with
    | ok deps => simp
    | error e => simp

/-! ## Claim theorems: cycle detection (C3, C4) -/

/-- A builtin integration with the given domain, hard dependencies and soft
(after) dependencies, as cached by the registry. -/
def mkIntegration (domain : String) (deps afterDeps : List String) : Integration :=
  { pkg_path := "homeassistant.components." ++ domain,
    file_path := "components/" ++ domain,
    manifest :=
      { domain := domain, name := domain, dependencies := deps,
        after_dependencies := afterDeps, requirements := [],
        config_flow := none, version := none, is_built_in := some true } }

/-- The three-plugin hard-dependency cycle a -> b -> c -> a. -/
def envCycle : String → Option Integration := fun d =>
  if d = "a" then some (mkIntegration "a" ["b"] [])
  else if d = "b" then some (mkIntegration "b" ["c"] [])
  else if d = "c" then some (mkIntegration "c" ["a"] [])
  else none

/-- Claim C3 counterexample: in the cycle a -> b -> c -> a, resolving b does
not report the edge (c, a): it reports (a, b), the edge that closes the
cycle back to b's own traversal, so the three roots do not share one edge. -/
theorem circular_chain_edge_differs :
    componentDependencies envCycle 9 (mkIntegration "b" ["c"] []) =
        .error (.circular "a" "b") ∧
      DepError.circular "a" "b" ≠ DepError.circular "c" "a" := by
  constructor
  · rfl
  · intro h
    exact absurd (congrArg (fun e => match e with
      | DepError.circular f _ => f
      | _ => "") h) (by decide)

/-- Claim C3 amended: for a hard-dependency chain A -> B -> C -> A, each
root reports the edge that closes the cycle back to its own traversal
start: resolving A reports (C, A); resolving B reports (A, B); resolving C
reports (B, C). The roots do not all report the same edge. -/
theorem circular_chain_edges (env : String → Option Integration)
    (pa pb pc : Integration) (fuel : Nat)
    (hb : env pb.domain = some pb) (hc : env pc.domain = some pc)
    (ha : env pa.domain = some pa)
    (hab : pa.domain ≠ pb.domain) (hbc : pb.domain ≠ pc.domain)
    (hca : pc.domain ≠ pa.domain)
    (hda : pa.manifest.dependencies = [pb.domain])
    (hdb : pb.manifest.dependencies = [pc.domain])
    (hdc : pc.manifest.dependencies = [pa.domain])
    (hfa : pa.manifest.after_dependencies = [])
    (hfb : pb.manifest.after_dependencies = [])
    (hfc : pc.manifest.after_dependencies = []) :
    componentDependencies env (fuel + 1 + 1 + 1) pa =
        .error (.circular pc.domain pa.domain) ∧
      componentDependencies env (fuel + 1 + 1 + 1) pb =
        .error (.circular pa.domain pb.domain) ∧
      componentDependencies env (fuel + 1 + 1 + 1) pc =
        .error (.circular pb.domain pc.domain) := by
  simp only [Integration.domain, Integration.dependencies] at ha hb hc hab hbc hca ⊢
  refine ⟨?_, ?_, ?_⟩ <;>
    simp [componentDependencies, depsGo, Integration.domain,
      Integration.dependencies, ha, hb, hc, hda, hdb, hdc, hfa, hfb, hfc,
      hab, hbc, hca, Ne.symm hab, Ne.symm hbc, Ne.symm hca,
      Finset.mem_insert, Finset.mem_singleton]

/-- Claim C3 amended, witnessed on the concrete cycle envCycle. -/
theorem circular_chain_edges_witness :
    componentDependencies envCycle 9 (mkIntegration "a" ["b"] []) =
        .error (.circular "c" "a") ∧
      componentDependencies envCycle 9 (mkIntegration "b" ["c"] []) =
        .error (.circular "a" "b") ∧
      componentDependencies envCycle 9 (mkIntegration "c" ["a"] []) =
        .error (.circular "b" "c") :=
  circular_chain_edges envCycle
    (mkIntegration "a" ["b"] []) (mkIntegration "b" ["c"] [])
    (mkIntegration "c" ["a"] []) 6
    rfl rfl rfl (by decide) (by decide) (by decide)
    rfl rfl rfl rfl rfl rfl

deriving instance DecidableEq for Except

/-- The chain s -> y -> x, where x lists the immediate parent y (but not the
start s) among its after_dependencies. -/
def envParent : String → Option Integration := fun d =>
  if d = "s" then some (mkIntegration "s" ["y"] [])
  else if d = "y" then some (mkIntegration "y" ["x"] [])
  else if d = "x" then some (mkIntegration "x" [] ["y"])
  else none

set_option maxRecDepth 8000 in
/-- Claim C4: if Y hard-depends on X (X heads Y's dependency list) and X
lists the original traversal start Y in its after_dependencies, resolving
Y's dependencies fails with Circular-Dependency referencing X. The check is
against the original start domain, not the immediate parent: in the chain
s -> y -> x where x lists only its immediate parent y among its
after_dependencies, resolving s succeeds. -/
theorem after_dependency_cycle :
    (∀ (env : String → Option Integration) (fuel : Nat)
        (pY pX : Integration) (rest : List String),
      pY.domain ≠ pX.domain →
      pY.manifest.dependencies = pX.domain :: rest →
      env pX.domain = some pX →
      pY.domain ∈ pX.manifest.after_dependencies →
      componentDependencies env (fuel + 1) pY =
        .error (.circular pY.domain pX.domain)) ∧
      (componentDependencies envParent 9 (mkIntegration "s" ["y"] [])).isOk =
        true := by
  constructor
  · intro env fuel pY pX rest hne hdep henv hafter
    simp only [Integration.domain] at hne henv hafter
    simp [componentDependencies, depsGo, Integration.domain,
      Integration.dependencies, hdep, henv, hafter, Ne.symm hne,
      Finset.mem_singleton]
  · rfl

/-- The soft-dependency violation of claim C4 witnessed concretely: mqtt
lists bridge in its after_dependencies while bridge hard-depends on mqtt. -/
def envBridge : String → Option Integration := fun d =>
  if d = "bridge" then some (mkIntegration "bridge" ["mqtt"] [])
  else if d = "mqtt" then some (mkIntegration "mqtt" [] ["bridge"])
  else none

/-- Claim C4 witness. -/
theorem after_dependency_cycle_witness :
    componentDependencies envBridge 5 (mkIntegration "bridge" ["mqtt"] []) =
      .error (.circular "bridge" "mqtt") :=
  after_dependency_cycle.1 envBridge 4
    (mkIntegration "bridge" ["mqtt"] []) (mkIntegration "mqtt" [] ["bridge"])
    [] (by decide) rfl rfl (by decide)

/-! ## Integration.resolve_from_root (loader.py lines 415-475) and the
custom-root version gate (C7) -/

/-- What the filesystem yields for base/domain/manifest.json: no file,
a file whose JSON fails to parse (logged and skipped), or a parsed
manifest. -/
inductive BaseProbe
  | absent
  | malformed
  | manifest (m : Manifest)
deriving DecidableEq

/-- A root module: its __name__ and its __path__ list of base directories. -/
structure RootModule where
  name : String
  path : List String

/-- The loop of Integration.resolve_from_root over root_module.__path__.
Parameters: versionOk is the external versioning utility (whether
AwesomeVersion accepts the string under one of the CALVER, SEMVER,
SIMPLEVER, BUILDVER, PEP440 strategies), fs the filesystem probe. For each
base: a missing or unparsable manifest is skipped; a parsed manifest is
turned into an Integration (pkg_path root.__name__.domain); a built-in
integration is returned at once; a custom one is returned only if its
manifest has a version that versionOk accepts, and otherwise the load is
blocked (None). -/
def resolveFromRootBases (versionOk : String → Bool)
    (fs : String → String → BaseProbe) (rootName domain : String) :
    List String → Option Integration
  | [] => none
  | base :: rest =>
    match fs base domain with
    | .absent => resolveFromRootBases versionOk fs rootName domain rest
    | .malformed => resolveFromRootBases versionOk fs rootName domain rest
    | .manifest m =>
      let i := (Integration.init (rootName ++ "." ++ domain)
        (base ++ "/" ++ domain) m).1
      if i.is_built_in then some i
      else
        match i.version with
        | none => none
        | some v => if versionOk v then some i else none

/-- Integration.resolve_from_root. -/
def Integration.resolve_from_root (versionOk : String → Bool)
    (fs : String → String → BaseProbe) (root : RootModule) (domain : String) :
    Option Integration :=
  resolveFromRootBases versionOk fs root.name domain root.path

/-- Claim C7: for a manifest parsed from a root whose resulting package path
is not under the built-in root, a missing version blocks the load (None),
and a version string accepted by none of the known strategies blocks the
load too; the identical manifest under the built-in root is returned
successfully with no version check at all (the versioning utility is
universally quantified in that conjunct). -/
theorem resolve_from_root_version_gate (versionOk : String → Bool)
    (fs : String → String → BaseProbe) (name base domain : String)
    (m : Manifest) (hfs : fs base domain = .manifest m) :
    (strStartsWith (name ++ "." ++ domain) PACKAGE_BUILTIN = false →
      m.version = none →
      Integration.resolve_from_root versionOk fs ⟨name, [base]⟩ domain = none) ∧
    (∀ v, strStartsWith (name ++ "." ++ domain) PACKAGE_BUILTIN = false →
      m.version = some v → versionOk v = false →
      Integration.resolve_from_root versionOk fs ⟨name, [base]⟩ domain = none) ∧
    (strStartsWith (name ++ "." ++ domain) PACKAGE_BUILTIN = true →
      Integration.resolve_from_root versionOk fs ⟨name, [base]⟩ domain =
        some (Integration.init (name ++ "." ++ domain) (base ++ "/" ++ domain)
          m).1) := by
  refine ⟨?_, ?_, ?_⟩
  · intro hb hv
    simp [Integration.resolve_from_root, resolveFromRootBases, hfs,
      Integration.is_built_in, Integration.init, Integration.version, hb, hv]
  · intro v hb hv hok
    simp [Integration.resolve_from_root, resolveFromRootBases, hfs,
      Integration.is_built_in, Integration.init, Integration.version, hb, hv,
      hok]
  · intro hb
    simp [Integration.resolve_from_root, resolveFromRootBases, hfs,
      Integration.is_built_in, Integration.init, hb]

/-- A custom-root manifest without a version key. -/
def manifestNoVersion : Manifest :=
  { domain := "hue", name := "Hue", dependencies := [],
    after_dependencies := [], requirements := [], config_flow := none,
    version := none, is_built_in := none }

/-- The filesystem that serves manifestNoVersion everywhere. -/
def fsNoVersion : String → String → BaseProbe := fun _ _ =>
  .manifest manifestNoVersion

/-- Claim C7 witness: the version-less manifest is blocked under the custom
root custom_components but loads under the built-in root. -/
theorem resolve_from_root_version_gate_witness :
    Integration.resolve_from_root (fun _ => true) fsNoVersion
        ⟨"custom_components", ["/config/custom_components"]⟩ "hue" = none ∧
      Integration.resolve_from_root (fun _ => true) fsNoVersion
          ⟨"homeassistant.components", ["/srv/homeassistant/components"]⟩
          "hue" =
        some (Integration.init "homeassistant.components.hue"
          "/srv/homeassistant/components/hue" manifestNoVersion).1 :=
  ⟨(resolve_from_root_version_gate (fun _ => true) fsNoVersion
      "custom_components" "/config/custom_components" "hue" manifestNoVersion
      rfl).1 (by decide) rfl,
    (resolve_from_root_version_gate (fun _ => true) fsNoVersion
      "homeassistant.components" "/srv/homeassistant/components" "hue"
      manifestNoVersion rfl).2.2 (by decide)⟩

/-! ## Zeroconf matcher backwards compatibility
(async_process_zeroconf_match_dict, loader.py lines 59, 267-285) -/

/-- A value of a zeroconf matcher dict entry: a string, or the nested
properties mapping. -/
inductive ZcVal
  | str (s : String)
  | props (m : List (String × String))
deriving DecidableEq

/-- A Python dict modelled as an association list. -/
abbrev ZcEntry := List (String × ZcVal)

/-- Dict lookup. -/
def alGet {α : Type} : List (String × α) → String → Option α
  | [], _ => none
  | (k', v) :: rest, k => if k' = k then some v else alGet rest k

/-- Dict key removal (del / pop). -/
def alErase {α : Type} : List (String × α) → String → List (String × α)
  | [], _ => []
  | (k', v) :: rest, k =>
    if k' = k then alErase rest k else (k', v) :: alErase rest k

/-- Dict assignment. -/
def alSet {α : Type} (e : List (String × α)) (k : String) (v : α) :
    List (String × α) :=
  (k, v) :: alErase e k

/-- Python str.lower on the character-list model. -/
def strToLower (s : String) : String := ⟨s.data.map Char.toLower⟩

def MOVED_ZEROCONF_PROPS : List String := ["macaddress", "model", "manufacturer"]

/-- One iteration of the moved-props loop: pop the legacy top-level key;
when the popped value is truthy (a non-empty string), relocate it into the
nested properties dict, lower-cased (creating the dict when absent). A
falsy value (absent key, empty string — or an empty dict) is popped without
relocation. A present non-empty dict value is untypable for these keys
(the manifest declares them as strings; the source would fail on
value.lower() there) and is excluded by the zcWellTyped hypothesis of the
theorems below. -/
def moveProp (e : ZcEntry) (prop : String) : ZcEntry :=
  match alGet e prop with
  | none => e
  | some (ZcVal.str v) =>
    let e' := alErase e prop
    if v = "" then e'
    else
      let pd := match alGet e' "properties" with
        | some (ZcVal.props m) => m
        | _ => []
      alSet e' "properties" (ZcVal.props (alSet pd prop (strToLower v)))
  | some (ZcVal.props _) => alErase e prop

/-- async_process_zeroconf_match_dict: copy the entry, delete the type key,
then migrate each legacy top-level property. Total (the migration is
non-fatal); the source's del raises only when the type key is absent, which
its caller has already ruled out by reading entry["type"] first. -/
def async_process_zeroconf_match_dict (entry : ZcEntry) : ZcEntry :=
  MOVED_ZEROCONF_PROPS.foldl moveProp (alErase entry "type")

/-- Read a key of the nested properties dict of an entry. -/
def zcPropertiesGet (e : ZcEntry) (k : String) : Option String :=
  match alGet e "properties" with
  | some (ZcVal.props m) => alGet m k
  | _ => none

/-- The typing discipline the manifest declares for matcher entries: the
three legacy keys hold strings (when present) and properties holds a
nested dict (when present). -/
def zcWellTyped (e : ZcEntry) : Bool :=
  (MOVED_ZEROCONF_PROPS.all fun p =>
    match alGet e p with
    | none => true
    | some (ZcVal.str _) => true
    | some (ZcVal.props _) => false) &&
  (match alGet e "properties" with
    | none => true
    | some (ZcVal.props _) => true
    | some (ZcVal.str _) => false)

theorem alGet_alErase {α : Type} (e : List (String × α)) (k k' : String) :
    alGet (alErase e k) k' = if k' = k then none else alGet e k' := by
  induction e with
  | nil => simp [alGet, alErase]
  | cons kv rest ih =>
    obtain ⟨k₀, v₀⟩ := kv
    by_cases h0 : k₀ = k <;> by_cases h1 : k' = k <;>
      by_cases h2 : k₀ = k' <;> simp_all [alGet, alErase]

theorem alGet_alSet {α : Type} (e : List (String × α)) (k k' : String)
    (v : α) :
    alGet (alSet e k v) k' = if k' = k then some v else alGet e k' := by
  simp only [alSet, alGet]
  by_cases h : k' = k
  · simp [h]
  · rw [if_neg (fun hh => h hh.symm), if_neg h, alGet_alErase, if_neg h]

theorem alGet_moveProp_of_ne (e : ZcEntry) (q k : String) (hq : k ≠ q)
    (hp : k ≠ "properties") :
    alGet (moveProp e q) k = alGet e k := by
  cases hg : alGet e q with
  | none => simp [moveProp, hg]
  | some v =>
    cases v with
    | props m => simp [moveProp, hg, alGet_alErase, hq]
    | str s =>
      by_cases hs : s = "" <;>
        simp [moveProp, hg, hs, alGet_alSet, alGet_alErase, hq, hp]

theorem alGet_moveProp_self (e : ZcEntry) (q : String)
    (hq : q ≠ "properties") :
    alGet (moveProp e q) q = none := by
  cases hg : alGet e q with
  | none => simp [moveProp, hg]
  | some v =>
    cases v with
    | props m => simp [moveProp, hg, alGet_alErase]
    | str s =>
      by_cases hs : s = "" <;>
        simp [moveProp, hg, hs, alGet_alSet, alGet_alErase, hq]

theorem zcPropertiesGet_moveProp_store (e : ZcEntry) (q s : String)
    (hq : q ≠ "properties") (hg : alGet e q = some (ZcVal.str s))
    (hs : s ≠ "") :
    zcPropertiesGet (moveProp e q) q = some (strToLower s) := by
  simp [moveProp, hg, hs, zcPropertiesGet, alGet_alSet]

theorem zcPropertiesGet_moveProp_of_ne (e : ZcEntry) (q k : String)
    (hk : k ≠ q) (hq : q ≠ "properties") :
    zcPropertiesGet (moveProp e q) k = zcPropertiesGet e k := by
  have hpe : alGet (alErase e q) "properties" = alGet e "properties" := by
    rw [alGet_alErase, if_neg (Ne.symm hq)]
  cases hg : alGet e q with
  | none => simp [moveProp, hg]
  | some v =>
    cases v with
    | props m => simp [zcPropertiesGet, moveProp, hg, hpe]
    | str s =>
      by_cases hs : s = ""
      · simp [zcPropertiesGet, moveProp, hg, hs, hpe]
      · simp [zcPropertiesGet, moveProp, hg, hs, alGet_alSet, hk, hpe]
        cases hp : alGet e "properties" with
        | none => simp [alGet]
        | some w => cases w <;> simp [alGet]

/-- Claim C8: for every well-typed matcher entry containing a type key, the
migrated entry has no type key; each legacy top-level property among
macaddress, model and manufacturer that is present with a non-empty string
value is absent from the top level of the result and appears inside the
nested properties mapping lower-cased; and every other top-level field is
carried over unchanged. The migration function is total (non-fatal). -/
theorem async_process_zeroconf_match_dict_spec (entry : ZcEntry)
    (htype : (alGet entry "type").isSome = true)
    (hwt : zcWellTyped entry = true) :
    alGet (async_process_zeroconf_match_dict entry) "type" = none ∧
    (∀ p s, p ∈ MOVED_ZEROCONF_PROPS → alGet entry p = some (ZcVal.str s) →
      s ≠ "" →
      alGet (async_process_zeroconf_match_dict entry) p = none ∧
        zcPropertiesGet (async_process_zeroconf_match_dict entry) p =
          some (strToLower s)) ∧
    (∀ k, k ∉ MOVED_ZEROCONF_PROPS → k ≠ "type" → k ≠ "properties" →
      alGet (async_process_zeroconf_match_dict entry) k = alGet entry k) := by
  have hunfold : async_process_zeroconf_match_dict entry =
      moveProp (moveProp (moveProp (alErase entry "type") "macaddress")
        "model") "manufacturer" := rfl
  refine ⟨?_, ?_, ?_⟩
  · rw [hunfold]
    rw [alGet_moveProp_of_ne _ _ _ (by decide) (by decide),
      alGet_moveProp_of_ne _ _ _ (by decide) (by decide),
      alGet_moveProp_of_ne _ _ _ (by decide) (by decide),
      alGet_alErase]
    simp
  · intro p s hp hg hs
    simp only [MOVED_ZEROCONF_PROPS, List.mem_cons, List.not_mem_nil,
      or_false] at hp
    rcases hp with h | h | h <;> subst h <;> rw [hunfold] <;>
      refine ⟨?_, ?_⟩
    · rw [alGet_moveProp_of_ne _ _ _ (by decide) (by decide),
        alGet_moveProp_of_ne _ _ _ (by decide) (by decide),
        alGet_moveProp_self _ _ (by decide)]
    · rw [zcPropertiesGet_moveProp_of_ne _ _ _ (by decide) (by decide),
        zcPropertiesGet_moveProp_of_ne _ _ _ (by decide) (by decide),
        zcPropertiesGet_moveProp_store _ _ _ (by decide)
          (by rw [alGet_alErase, if_neg (by decide)]; exact hg) hs]
    · rw [alGet_moveProp_of_ne _ _ _ (by decide) (by decide),
        alGet_moveProp_self _ _ (by decide)]
    · rw [zcPropertiesGet_moveProp_of_ne _ _ _ (by decide) (by decide),
        zcPropertiesGet_moveProp_store _ _ _ (by decide)
          (by rw [alGet_moveProp_of_ne _ _ _ (by decide) (by decide),
                alGet_alErase, if_neg (by decide)]
              exact hg) hs]
    · rw [alGet_moveProp_self _ _ (by decide)]
    · rw [zcPropertiesGet_moveProp_store _ _ _ (by decide)
          (by rw [alGet_moveProp_of_ne _ _ _ (by decide) (by decide),
                alGet_moveProp_of_ne _ _ _ (by decide) (by decide),
                alGet_alErase, if_neg (by decide)]
              exact hg) hs]
  · intro k hk ht hprops
    have h1 : k ≠ "macaddress" := fun h => hk (by simp [MOVED_ZEROCONF_PROPS, h])
    have h2 : k ≠ "model" := fun h => hk (by simp [MOVED_ZEROCONF_PROPS, h])
    have h3 : k ≠ "manufacturer" := fun h => hk (by simp [MOVED_ZEROCONF_PROPS, h])
    rw [hunfold,
      alGet_moveProp_of_ne _ _ _ h3 hprops,
      alGet_moveProp_of_ne _ _ _ h2 hprops,
      alGet_moveProp_of_ne _ _ _ h1 hprops,
      alGet_alErase]
    simp [ht]

/-- A concrete legacy zeroconf matcher entry. -/
def zcEntryLegacy : ZcEntry :=
  [("type", ZcVal.str "_hue._tcp.local."),
   ("macaddress", ZcVal.str "AB:CD*"),
   ("name", ZcVal.str "hue*")]

/-- Claim C8 witness: migrating the concrete legacy entry removes type and
macaddress from the top level, stores the lower-cased MAC under properties
and keeps the name field. -/
theorem async_process_zeroconf_match_dict_spec_witness :
    alGet (async_process_zeroconf_match_dict zcEntryLegacy) "type" = none ∧
      alGet (async_process_zeroconf_match_dict zcEntryLegacy) "macaddress" =
        none ∧
      zcPropertiesGet (async_process_zeroconf_match_dict zcEntryLegacy)
          "macaddress" = some (strToLower "AB:CD*") ∧
      alGet (async_process_zeroconf_match_dict zcEntryLegacy) "name" =
        some (ZcVal.str "hue*") := by
  have h := async_process_zeroconf_match_dict_spec zcEntryLegacy (by decide)
    (by decide)
  refine ⟨h.1, ?_, ?_, ?_⟩
  · exact (h.2.1 "macaddress" "AB:CD*" (by decide) (by decide) (by decide)).1
  · exact (h.2.1 "macaddress" "AB:CD*" (by decide) (by decide) (by decide)).2
  · rw [h.2.2 "name" (by decide) (by decide) (by decide)]
    decide

/-! ## The registry batch get: async_get_integrations
(loader.py lines 707-801, 992-1002)

One call is modelled as a pure state transformer. The cache
(hass.data[DATA_INTEGRATIONS]) maps a domain to nothing, a pending event,
or a resolved Integration. The environment supplies the outcome of each
awaited sub-operation: whether the config directory is set, the cached
custom-components mapping, the builtin-root resolution outcome per domain
(which may raise), and the cache contents observed for an in-progress
domain after its event fires (always an Integration or absence, because
every setter either stores a resolved Integration or pops the entry before
setting the event). -/

/-- A registry cache entry: an in-flight asyncio.Event or a resolved
Integration. -/
inductive CacheEntry
  | pending
  | resolved (p : Integration)
deriving DecidableEq

abbrev Cache := String → Option CacheEntry

/-- The per-domain values of the results dict: an Integration or one of the
exceptions stored there (ValueError for an invalid domain, or
IntegrationNotFound with an optional __cause__, exceptions being named by
numeric ids). -/
inductive GetError
  | invalidDomain (domain : String)
  | notFound (domain : String) (cause : Option Nat)
deriving DecidableEq

inductive IntegrationOrExc
  | integ (p : Integration)
  | exc (e : GetError)
deriving DecidableEq

abbrev GetResults := String → Option IntegrationOrExc

/-- What resolve_from_root does for one domain on the builtin root: return
an Integration, return None, or raise. -/
inductive RootOutcome
  | found (p : Integration)
  | missing
  | raised (exc : Nat)
deriving DecidableEq

/-- The environment of one async_get_integrations call. -/
structure GetEnv where
  configDirSet : Bool
  custom : String → Option Integration
  rootOutcome : String → RootOutcome
  afterWait : String → Option Integration

/-- Pointwise update of a dict-as-function. -/
def updFun {α : Type} (f : String → Option α) (k : String) (v : Option α) :
    String → Option α :=
  fun s => if s = k then v else f s

/-- _resolve_integrations_from_root: resolve each requested domain, catching
any exception (logged, and the domain is simply omitted from the returned
dict). The value type still admits an exception because the caller's branch
structure does (the Integration-or-Exception dict it reads), but this
function never produces one. -/
def resolveIntegrationsFromRoot (outcome : String → RootOutcome)
    (domains : List String) : String → Option (Integration ⊕ Nat) :=
  fun d =>
    if d ∈ domains then
      match outcome d with
      | .found p => some (.inl p)
      | .missing => none
      | .raised _ => none
    else none

/-- The intermediate state of the first loop of async_get_integrations. -/
structure GetState where
  results : GetResults
  needed : List String
  inProgress : List String
  cache : Cache

/-- Python test "." in domain, on the character-list model of strings. -/
def strContainsDot (s : String) : Bool := s.data.any (fun a => a == '.')

/-- One iteration of the first loop: a pending entry queues the domain on
the in-flight event; a resolved entry is returned directly; a domain
containing a dot is rejected as invalid; otherwise the domain is marked
pending and added to needed. -/
def phase1Step (st : GetState) (domain : String) : GetState :=
  match st.cache domain with
  | some .pending => { st with inProgress := st.inProgress ++ [domain] }
  | some (.resolved p) =>
    { st with results := updFun st.results domain (some (.integ p)) }
  | none =>
    if strContainsDot domain then
      { st with
        results := updFun st.results domain (some (.exc (.invalidDomain domain))) }
    else
      { st with
        needed := st.needed ++ [domain],
        cache := updFun st.cache domain (some .pending) }

/-- One iteration over the in-progress domains: after awaiting the event,
re-read the cache; absence means the resolution failed (reported Not-Found,
never cached), otherwise the resolved Integration is returned. -/
def phase2Step (env : GetEnv) (r : GetResults) (d : String) : GetResults :=
  match env.afterWait d with
  | none => updFun r d (some (.exc (.notFound d none)))
  | some p => updFun r d (some (.integ p))

/-- One iteration of the custom-components pass over the needed domains. -/
def phase3Step (env : GetEnv) (rc : GetResults × Cache) (d : String) :
    GetResults × Cache :=
  match env.custom d with
  | some p =>
    (updFun rc.1 d (some (.integ p)), updFun rc.2 d (some (.resolved p)))
  | none => rc

/-- One iteration of the builtin-root pass: a domain missing from the
returned dict pops its pending marker and reports Not-Found; a (dead
branch) exception value would pop the marker and report Not-Found with the
exception attached as __cause__; an Integration is cached and returned. -/
def phase4Step (integrations : String → Option (Integration ⊕ Nat))
    (rc : GetResults × Cache) (d : String) : GetResults × Cache :=
  match integrations d with
  | none => (updFun rc.1 d (some (.exc (.notFound d none))), updFun rc.2 d none)
  | some (.inr e) =>
    (updFun rc.1 d (some (.exc (.notFound d (some e)))), updFun rc.2 d none)
  | some (.inl p) =>
    (updFun rc.1 d (some (.integ p)), updFun rc.2 d (some (.resolved p)))

/-- The initial state of the first loop: empty results, needed and
in-progress collections over the existing cache. -/
def initialGetState (cache0 : Cache) : GetState :=
  { results := fun _ => none, needed := [], inProgress := [], cache := cache0 }

/-- The body of async_get_integrations once the cache exists: the four
phases (triage loop; await of in-progress domains and cache re-read;
custom-components lookup for the needed domains; builtin-root resolution
for the rest, popping the pending marker on failure). Returns the results
dict and the final cache. -/
def asyncGetIntegrationsRun (env : GetEnv) (cache0 : Cache)
    (domains : List String) : GetResults × Cache :=
  let s1 := domains.foldl phase1Step (initialGetState cache0)
  let res2 := s1.inProgress.foldl (phase2Step env) s1.results
  let s3 := s1.needed.foldl (phase3Step env) (res2, s1.cache)
  let needed2 := s1.needed.filter (fun d => s3.1 d = none)
  let integrations := resolveIntegrationsFromRoot env.rootOutcome needed2
  needed2.foldl (phase4Step integrations) s3

/-- async_get_integrations: when hass.data has no integrations cache yet and
the config directory is not set, every requested domain reports
IntegrationNotFound; when the cache is absent but the config dir is set, an
empty cache is created; otherwise the existing cache is used. -/
def async_get_integrations (env : GetEnv) (cacheOpt : Option Cache)
    (domains : List String) : GetResults × Option Cache :=
  match cacheOpt with
  | none =>
    if env.configDirSet then
      let rc := asyncGetIntegrationsRun env (fun _ => none) domains
      (rc.1, some rc.2)
    else
      ((fun d => if d ∈ domains then some (.exc (.notFound d none)) else none),
        none)
  | some c =>
    let rc := asyncGetIntegrationsRun env c domains
    (rc.1, some rc.2)

/-! ### Fold lemmas for the registry phases -/

theorem updFun_ne {α : Type} (f : String → Option α) (k x : String)
    (v : Option α) (h : x ≠ k) : updFun f k v x = f x := by
  simp [updFun, h]

theorem updFun_self {α : Type} (f : String → Option α) (k : String)
    (v : Option α) : updFun f k v k = v := by
  simp [updFun]

/-- The state invariant of the first loop at a dotted domain x: no cache
entry, not queued anywhere, and the only result it can have received is the
Invalid-Domain error. -/
def Inv1 (x : String) (st : GetState) : Prop :=
  st.cache x = none ∧ x ∉ st.needed ∧ x ∉ st.inProgress ∧
    (st.results x = none ∨
      st.results x = some (.exc (.invalidDomain x)))

/-- An iteration of the first loop for another domain does not affect x. -/
theorem phase1Step_ne (st : GetState) (d x : String) (hxd : x ≠ d) :
    (phase1Step st d).cache x = st.cache x ∧
      (phase1Step st d).results x = st.results x ∧
      (x ∈ (phase1Step st d).needed ↔ x ∈ st.needed) ∧
      (x ∈ (phase1Step st d).inProgress ↔ x ∈ st.inProgress) := by
  unfold phase1Step
  cases st.cache d with
  | none =>
    by_cases hd : strContainsDot d <;>
      simp [hd, updFun, hxd, List.mem_append, List.mem_singleton]
  | some ce =>
    cases ce with
    | pending => simp [updFun, hxd, List.mem_append, List.mem_singleton]
    | resolved p => simp [updFun, hxd]

/-- The iteration of the first loop at a dotted, uncached domain records the
Invalid-Domain error and changes nothing else for it. -/
theorem phase1Step_dot_self (st : GetState) (x : String)
    (hx : strContainsDot x = true) (h1 : st.cache x = none) :
    (phase1Step st x).results x = some (.exc (.invalidDomain x)) ∧
      (phase1Step st x).cache x = st.cache x ∧
      (x ∈ (phase1Step st x).needed ↔ x ∈ st.needed) ∧
      (x ∈ (phase1Step st x).inProgress ↔ x ∈ st.inProgress) := by
  simp [phase1Step, h1, hx, updFun]

theorem phase1Step_inv (x : String) (hx : strContainsDot x = true)
    (st : GetState) (d : String) (h : Inv1 x st) : Inv1 x (phase1Step st d) := by
  obtain ⟨h1, h2, h3, h4⟩ := h
  by_cases hdx : x = d
  · subst hdx
    obtain ⟨g1, g2, g3, g4⟩ := phase1Step_dot_self st x hx h1
    exact ⟨g2.trans h1, fun hh => h2 (g3.mp hh), fun hh => h3 (g4.mp hh),
      Or.inr g1⟩
  · obtain ⟨g1, g2, g3, g4⟩ := phase1Step_ne st d x hdx
    exact ⟨g1.trans h1, fun hh => h2 (g3.mp hh), fun hh => h3 (g4.mp hh),
      g2 ▸ h4⟩

/-- After the first loop, a dotted domain that occurs in the request holds
the Invalid-Domain result, and the invariant still holds. -/
theorem phase1_fold_inv (x : String) (hx : strContainsDot x = true) :
    ∀ (l : List String) (st : GetState), Inv1 x st →
      Inv1 x (l.foldl phase1Step st) ∧
        ((x ∈ l ∨ st.results x = some (.exc (.invalidDomain x))) →
          (l.foldl phase1Step st).results x =
            some (.exc (.invalidDomain x))) := by
  intro l
  induction l with
  | nil =>
    intro st h
    refine ⟨h, ?_⟩
    rintro (hh | hh)
    · exact absurd hh (List.not_mem_nil x)
    · exact hh
  | cons d rest ih =>
    intro st h
    have h' := phase1Step_inv x hx st d h
    refine ⟨(ih _ h').1, ?_⟩
    rintro (hh | hh)
    · rcases List.mem_cons.mp hh with hh | hh
      · subst hh
        exact (ih _ h').2 (Or.inr (phase1Step_dot_self st x hx h.1).1)
      · exact (ih _ h').2 (Or.inl hh)
    · by_cases hdx : x = d
      · subst hdx
        exact (ih _ h').2 (Or.inr (phase1Step_dot_self st x hx h.1).1)
      · exact (ih _ h').2
          (Or.inr ((phase1Step_ne st d x hdx).2.1.trans hh))

/-- The awaited-events pass only writes results for its own domains. -/
theorem phase2_fold_ne (env : GetEnv) (x : String) :
    ∀ (l : List String) (r : GetResults), x ∉ l →
      (l.foldl (phase2Step env) r) x = r x := by
  intro l
  induction l with
  | nil => intro r _; rfl
  | cons d rest ih =>
    intro r hx
    have hxd : x ≠ d := fun hh => hx (hh ▸ List.mem_cons_self d rest)
    have hrest : x ∉ rest := fun hh => hx (List.mem_cons_of_mem d hh)
    rw [List.foldl_cons, ih _ hrest]
    cases h : env.afterWait d <;> simp [phase2Step, h, updFun, hxd]

/-- The custom-components pass leaves a domain untouched when the custom
mapping has no entry for it (its own iteration is then a no-op, and other
iterations write elsewhere). -/
theorem phase3_fold_none (env : GetEnv) (x : String)
    (hcu : env.custom x = none) :
    ∀ (l : List String) (rc : GetResults × Cache),
      (l.foldl (phase3Step env) rc).1 x = rc.1 x ∧
        (l.foldl (phase3Step env) rc).2 x = rc.2 x := by
  intro l
  induction l with
  | nil => intro rc; exact ⟨rfl, rfl⟩
  | cons d rest ih =>
    intro rc
    rw [List.foldl_cons]
    refine ⟨?_, ?_⟩ <;> by_cases hdx : d = x
    · subst hdx
      rw [(ih _).1]
      simp [phase3Step, hcu]
    · rw [(ih _).1]
      have hxd : x ≠ d := fun hh => hdx hh.symm
      cases h : env.custom d <;> simp [phase3Step, h, updFun, hxd]
    · subst hdx
      rw [(ih _).2]
      simp [phase3Step, hcu]
    · rw [(ih _).2]
      have hxd : x ≠ d := fun hh => hdx hh.symm
      cases h : env.custom d <;> simp [phase3Step, h, updFun, hxd]

/-- The custom-components pass only writes at its own domains. -/
theorem phase3_fold_ne (env : GetEnv) (x : String) :
    ∀ (l : List String) (rc : GetResults × Cache), x ∉ l →
      (l.foldl (phase3Step env) rc).1 x = rc.1 x ∧
        (l.foldl (phase3Step env) rc).2 x = rc.2 x := by
  intro l
  induction l with
  | nil => intro rc _; exact ⟨rfl, rfl⟩
  | cons d rest ih =>
    intro rc hx
    have hxd : x ≠ d := fun hh => hx (hh ▸ List.mem_cons_self d rest)
    have hrest : x ∉ rest := fun hh => hx (List.mem_cons_of_mem d hh)
    rw [List.foldl_cons]
    refine ⟨?_, ?_⟩
    · rw [(ih _ hrest).1]
      cases h : env.custom d <;> simp [phase3Step, h, updFun, hxd]
    · rw [(ih _ hrest).2]
      cases h : env.custom d <;> simp [phase3Step, h, updFun, hxd]

/-- The builtin-root pass only writes at its own domains. -/
theorem phase4_fold_ne (integrations : String → Option (Integration ⊕ Nat))
    (x : String) :
    ∀ (l : List String) (rc : GetResults × Cache), x ∉ l →
      (l.foldl (phase4Step integrations) rc).1 x = rc.1 x ∧
        (l.foldl (phase4Step integrations) rc).2 x = rc.2 x := by
  intro l
  induction l with
  | nil => intro rc _; exact ⟨rfl, rfl⟩
  | cons d rest ih =>
    intro rc hx
    have hxd : x ≠ d := fun hh => hx (hh ▸ List.mem_cons_self d rest)
    have hrest : x ∉ rest := fun hh => hx (List.mem_cons_of_mem d hh)
    rw [List.foldl_cons]
    refine ⟨?_, ?_⟩
    · rw [(ih _ hrest).1]
      cases h : integrations d with
      | none => simp [phase4Step, h, updFun, hxd]
      | some ie => cases ie <;> simp [phase4Step, h, updFun, hxd]
    · rw [(ih _ hrest).2]
      cases h : integrations d with
      | none => simp [phase4Step, h, updFun, hxd]
      | some ie => cases ie <;> simp [phase4Step, h, updFun, hxd]

/-- A full run maps a dotted domain (with no pre-existing cache entry) to
the Invalid-Domain error, writes nothing into the cache for it, and this is
independent of the whole environment. -/
theorem asyncGetIntegrationsRun_dot (env : GetEnv) (cache0 : Cache)
    (domains : List String) (x : String) (hx : strContainsDot x = true)
    (hmem : x ∈ domains) (h0 : cache0 x = none) :
    (asyncGetIntegrationsRun env cache0 domains).1 x =
        some (.exc (.invalidDomain x)) ∧
      (asyncGetIntegrationsRun env cache0 domains).2 x = none := by
  have hinit : Inv1 x (initialGetState cache0) :=
    ⟨h0, List.not_mem_nil x, List.not_mem_nil x, Or.inl rfl⟩
  obtain ⟨hinv, hres⟩ := phase1_fold_inv x hx domains _ hinit
  set s1 := domains.foldl phase1Step (initialGetState cache0) with hs1
  have hres1 : s1.results x = some (.exc (.invalidDomain x)) :=
    hres (Or.inl hmem)
  obtain ⟨hc1, hn1, hip1, _⟩ := hinv
  set res2 := s1.inProgress.foldl (phase2Step env) s1.results with hres2
  set s3 := s1.needed.foldl (phase3Step env) (res2, s1.cache) with hs3
  set needed2 := s1.needed.filter (fun d => s3.1 d = none) with hneeded2
  have hrun : asyncGetIntegrationsRun env cache0 domains =
      needed2.foldl
        (phase4Step (resolveIntegrationsFromRoot env.rootOutcome needed2))
        s3 := rfl
  have hnn2 : x ∉ needed2 := fun hh => hn1 (List.mem_of_mem_filter hh)
  have h2 : res2 x = some (.exc (.invalidDomain x)) := by
    rw [hres2, phase2_fold_ne env x _ _ hip1, hres1]
  constructor
  · rw [hrun, (phase4_fold_ne _ x needed2 s3 hnn2).1, hs3,
      (phase3_fold_ne env x s1.needed (res2, s1.cache) hn1).1]
    exact h2
  · rw [hrun, (phase4_fold_ne _ x needed2 s3 hnn2).2, hs3,
      (phase3_fold_ne env x s1.needed (res2, s1.cache) hn1).2]
    exact hc1

/-- An environment with no config directory set. -/
def envNoConfig : GetEnv :=
  { configDirSet := false, custom := fun _ => none,
    rootOutcome := fun _ => .missing, afterWait := fun _ => none }

/-- Claim C1 counterexample: when no integrations cache exists yet and the
config directory is not set, async_get_integrations returns
IntegrationNotFound — not the Invalid-Domain ValueError — for a dotted
domain (the early config-dir return reports Not-Found for every requested
domain before the dot check is reached). -/
theorem async_get_integrations_dot_config_dir_unset :
    (async_get_integrations envNoConfig none ["light.kitchen"]).1
        "light.kitchen" =
      some (.exc (.notFound "light.kitchen" none)) ∧
    strContainsDot "light.kitchen" = true ∧
    IntegrationOrExc.exc (.notFound "light.kitchen" none) ≠
      IntegrationOrExc.exc (.invalidDomain "light.kitchen") := by
  refine ⟨by decide, by decide, by decide⟩

/-- Claim C1 amended: provided the call does not take the config-dir-unset
early return (the cache exists, or the config directory is set), and the
cache — which no call ever populates at a dotted key — has no entry for the
domain, every requested domain containing a dot is mapped to the
Invalid-Domain ValueError, no cache entry is written for it, and the
result is independent of the filesystem and of the other requested domains
(the whole environment and request list are universally quantified). -/
theorem async_get_integrations_dot_invalid_domain (env : GetEnv)
    (cacheOpt : Option Cache) (domains : List String) (domain : String)
    (hdot : strContainsDot domain = true) (hmem : domain ∈ domains)
    (hinit : cacheOpt = none → env.configDirSet = true)
    (hnone : ∀ c, cacheOpt = some c → c domain = none) :
    (async_get_integrations env cacheOpt domains).1 domain =
        some (.exc (.invalidDomain domain)) ∧
      ∀ c', (async_get_integrations env cacheOpt domains).2 = some c' →
        c' domain = none := by
  cases cacheOpt with
  | none =>
    have hcfg := hinit rfl
    have h := asyncGetIntegrationsRun_dot env (fun _ => none) domains domain
      hdot hmem rfl
    constructor
    · simpa [async_get_integrations, hcfg] using h.1
    · intro c' hc'
      have h2 : some (asyncGetIntegrationsRun env (fun _ => none) domains).2 =
          some c' := by
        simpa [async_get_integrations, hcfg] using hc'
      obtain rfl := Option.some.inj h2
      exact h.2
  | some c =>
    have h := asyncGetIntegrationsRun_dot env c domains domain
      hdot hmem (hnone c rfl)
    constructor
    · simpa [async_get_integrations] using h.1
    · intro c' hc'
      have h2 : some (asyncGetIntegrationsRun env c domains).2 = some c' := by
        simpa [async_get_integrations] using hc'
      obtain rfl := Option.some.inj h2
      exact h.2

/-- An environment with the config directory set and nothing resolvable. -/
def envEmpty : GetEnv :=
  { configDirSet := true, custom := fun _ => none,
    rootOutcome := fun _ => .missing, afterWait := fun _ => none }

/-- Claim C1 witness: a dotted domain in a two-domain request against an
empty initialized cache yields the Invalid-Domain error. -/
theorem async_get_integrations_dot_invalid_domain_witness :
    (async_get_integrations envEmpty (some (fun _ => none))
        ["light.kitchen", "hue"]).1 "light.kitchen" =
      some (.exc (.invalidDomain "light.kitchen")) :=
  (async_get_integrations_dot_invalid_domain envEmpty
    (some (fun _ => none)) ["light.kitchen", "hue"] "light.kitchen"
    (by decide) (by decide) (fun h => Option.noConfusion h)
    (fun c hc => by obtain rfl := Option.some.inj hc; rfl)).1

/-! ### The Not-Found failure path (C2) -/

/-- The state of the first loop at an undotted domain x before its
iteration runs. -/
def PreState (x : String) (st : GetState) : Prop :=
  st.cache x = none ∧ x ∉ st.needed ∧ x ∉ st.inProgress ∧ st.results x = none

/-- The state of the first loop at an undotted domain x after its iteration
marked it pending and queued it in needed. -/
def PendingState (x : String) (st : GetState) : Prop :=
  st.cache x = some .pending ∧ x ∈ st.needed ∧ x ∉ st.inProgress ∧
    st.results x = none

/-- The iteration of the first loop at an uncached, undotted domain marks it
pending and adds it to needed. -/
theorem phase1Step_undot_self (st : GetState) (x : String)
    (hx : strContainsDot x = false) (h1 : st.cache x = none)
    (h3 : x ∉ st.inProgress) (h4 : st.results x = none) :
    PendingState x (phase1Step st x) := by
  refine ⟨?_, ?_, ?_, ?_⟩ <;>
    simp [phase1Step, h1, hx, updFun, h3, h4, List.mem_append]

theorem phase1_fold_pre_ne (x : String) :
    ∀ (l : List String) (st : GetState), x ∉ l → PreState x st →
      PreState x (l.foldl phase1Step st) := by
  intro l
  induction l with
  | nil => intro st _ h; exact h
  | cons d rest ih =>
    intro st hx h
    have hxd : x ≠ d := fun hh => hx (hh ▸ List.mem_cons_self d rest)
    have hrest : x ∉ rest := fun hh => hx (List.mem_cons_of_mem d hh)
    obtain ⟨g1, g2, g3, g4⟩ := phase1Step_ne st d x hxd
    exact ih _ hrest ⟨g1.trans h.1, fun hh => h.2.1 (g3.mp hh),
      fun hh => h.2.2.1 (g4.mp hh), g2.trans h.2.2.2⟩

theorem phase1_fold_pending_ne (x : String) :
    ∀ (l : List String) (st : GetState), x ∉ l → PendingState x st →
      PendingState x (l.foldl phase1Step st) := by
  intro l
  induction l with
  | nil => intro st _ h; exact h
  | cons d rest ih =>
    intro st hx h
    have hxd : x ≠ d := fun hh => hx (hh ▸ List.mem_cons_self d rest)
    have hrest : x ∉ rest := fun hh => hx (List.mem_cons_of_mem d hh)
    obtain ⟨g1, g2, g3, g4⟩ := phase1Step_ne st d x hxd
    exact ih _ hrest ⟨g1.trans h.1, g3.mpr h.2.1,
      fun hh => h.2.2.1 (g4.mp hh), g2.trans h.2.2.2⟩

/-- After the first loop over a duplicate-free request containing the
uncached, undotted domain x, the domain is pending and queued in needed. -/
theorem phase1_fold_pending (x : String) (hx : strContainsDot x = false) :
    ∀ (l : List String) (st : GetState), l.Nodup → x ∈ l → PreState x st →
      PendingState x (l.foldl phase1Step st) := by
  intro l
  induction l with
  | nil => intro st _ hmem _; exact absurd hmem (List.not_mem_nil x)
  | cons d rest ih =>
    intro st hnd hmem h
    by_cases hxd : x = d
    · subst hxd
      have hrest : x ∉ rest := (List.nodup_cons.mp hnd).1
      exact phase1_fold_pending_ne x rest _ hrest
        (phase1Step_undot_self st x hx h.1 h.2.2.1 h.2.2.2)
    · have hmem' : x ∈ rest := by
        rcases List.mem_cons.mp hmem with hh | hh
        · exact absurd hh hxd
        · exact hh
      obtain ⟨g1, g2, g3, g4⟩ := phase1Step_ne st d x hxd
      exact ih _ (List.nodup_cons.mp hnd).2 hmem'
        ⟨g1.trans h.1, fun hh => h.2.1 (g3.mp hh),
          fun hh => h.2.2.1 (g4.mp hh), g2.trans h.2.2.2⟩

/-- The builtin-root pass records the plain Not-Found failure and pops the
pending marker for a domain missing from the resolved dict. -/
theorem phase4_fold_mem (integrations : String → Option (Integration ⊕ Nat))
    (x : String) (hint : integrations x = none) :
    ∀ (l : List String) (rc : GetResults × Cache), x ∈ l →
      (l.foldl (phase4Step integrations) rc).1 x =
          some (.exc (.notFound x none)) ∧
        (l.foldl (phase4Step integrations) rc).2 x = none := by
  intro l
  induction l with
  | nil => intro rc hmem; exact absurd hmem (List.not_mem_nil x)
  | cons d rest ih =>
    intro rc hmem
    by_cases hxr : x ∈ rest
    · exact ih _ hxr
    · have hxd : x = d := by
        rcases List.mem_cons.mp hmem with hh | hh
        · exact hh
        · exact absurd hh hxr
      subst hxd
      rw [List.foldl_cons]
      obtain ⟨g1, g2⟩ := phase4_fold_ne integrations x rest
        (phase4Step integrations rc x) hxr
      constructor
      · rw [g1]; simp [phase4Step, hint, updFun]
      · rw [g2]; simp [phase4Step, hint, updFun]

/-- A full run over a duplicate-free request maps an uncached, undotted
domain that neither the custom components nor the builtin root can resolve
to the plain Not-Found error (no attached cause), and leaves its cache
entry absent (the pending marker is popped, never a negative cache). -/
theorem asyncGetIntegrationsRun_failure (env : GetEnv) (cache0 : Cache)
    (domains : List String) (x : String)
    (hx : strContainsDot x = false) (hmem : x ∈ domains)
    (hnd : domains.Nodup) (h0 : cache0 x = none)
    (hcu : env.custom x = none)
    (hro : ∀ p, env.rootOutcome x ≠ .found p) :
    (asyncGetIntegrationsRun env cache0 domains).1 x =
        some (.exc (.notFound x none)) ∧
      (asyncGetIntegrationsRun env cache0 domains).2 x = none := by
  have hP : PreState x (initialGetState cache0) :=
    ⟨h0, List.not_mem_nil x, List.not_mem_nil x, rfl⟩
  have hQ := phase1_fold_pending x hx domains _ hnd hmem hP
  set s1 := domains.foldl phase1Step (initialGetState cache0) with hs1
  set res2 := s1.inProgress.foldl (phase2Step env) s1.results with hres2
  set s3 := s1.needed.foldl (phase3Step env) (res2, s1.cache) with hs3
  set needed2 := s1.needed.filter (fun d => s3.1 d = none) with hneeded2
  have hrun : asyncGetIntegrationsRun env cache0 domains =
      needed2.foldl
        (phase4Step (resolveIntegrationsFromRoot env.rootOutcome needed2))
        s3 := rfl
  have h2 : res2 x = none := by
    rw [hres2, phase2_fold_ne env x _ _ hQ.2.2.1]
    exact hQ.2.2.2
  have h31 : s3.1 x = none := by
    rw [hs3, (phase3_fold_none env x hcu s1.needed (res2, s1.cache)).1]
    exact h2
  have h32 : s3.2 x = some .pending := by
    rw [hs3, (phase3_fold_none env x hcu s1.needed (res2, s1.cache)).2]
    exact hQ.1
  have hmem2 : x ∈ needed2 := by
    rw [hneeded2]
    exact List.mem_filter.mpr ⟨hQ.2.1, by simp [h31]⟩
  have hint : resolveIntegrationsFromRoot env.rootOutcome needed2 x = none := by
    cases h : env.rootOutcome x with
    | found p => exact absurd h (hro p)
    | missing => simp [resolveIntegrationsFromRoot, h]
    | raised e => simp [resolveIntegrationsFromRoot, h]
  rw [hrun]
  exact phase4_fold_mem _ x hint needed2 s3 hmem2

/-- A run on a singleton request for an uncached, undotted domain that the
custom-components mapping resolves returns that custom Integration. -/
theorem asyncGetIntegrationsRun_custom_hit (env : GetEnv) (cache0 : Cache)
    (x : String) (p : Integration) (hx : strContainsDot x = false)
    (h0 : cache0 x = none) (hcu : env.custom x = some p) :
    (asyncGetIntegrationsRun env cache0 [x]).1 x = some (.integ p) := by
  simp [asyncGetIntegrationsRun, initialGetState, phase1Step, h0, hx,
    phase2Step, phase3Step, hcu, updFun, resolveIntegrationsFromRoot]

/-- An environment whose builtin-root resolution raises for every domain
(exception id 7), with no custom components. -/
def envRaise : GetEnv :=
  { configDirSet := true, custom := fun _ => none,
    rootOutcome := fun _ => .raised 7, afterWait := fun _ => none }

/-- Claim C2 counterexample: when the underlying resolution raises an
exception, async_get_integrations reports IntegrationNotFound with no
attached cause — _resolve_integrations_from_root catches and logs the
exception and omits the domain, so the cause-attaching branch of
async_get_integrations is never reached and the error the caller receives
carries cause None rather than the underlying exception. -/
theorem async_get_integrations_failure_cause_not_attached :
    (async_get_integrations envRaise (some (fun _ => none)) ["hue"]).1 "hue" =
        some (.exc (.notFound "hue" none)) ∧
      GetError.notFound "hue" none ≠ GetError.notFound "hue" (some 7) ∧
      (∀ (domains : List String) (d : String) (e : Nat),
        resolveIntegrationsFromRoot envRaise.rootOutcome domains d ≠
          some (.inr e)) := by
  refine ⟨by decide, by decide, ?_⟩
  intro domains d e
  by_cases h : d ∈ domains <;> simp [resolveIntegrationsFromRoot, h, envRaise]

/-- Claim C2 amended: for an uncached, undotted domain in a duplicate-free
request whose resolution fails (no custom component, and the builtin root
either finds nothing or raises), async_get_integrations removes the pending
marker so the cache entry is absent afterwards (never cached negatively),
and reports IntegrationNotFound for that domain with no attached cause (the
underlying exception having been swallowed and logged inside the root
resolver); a subsequent call for the same domain re-attempts resolution and
succeeds once the environment can resolve it. -/
theorem async_get_integrations_failure_uncached (env : GetEnv) (c : Cache)
    (domains : List String) (domain : String)
    (hdot : strContainsDot domain = false) (hmem : domain ∈ domains)
    (hnd : domains.Nodup) (hc : c domain = none)
    (hcu : env.custom domain = none)
    (hro : ∀ p, env.rootOutcome domain ≠ .found p) :
    (async_get_integrations env (some c) domains).1 domain =
        some (.exc (.notFound domain none)) ∧
      ∀ c', (async_get_integrations env (some c) domains).2 = some c' →
        c' domain = none ∧
          ∀ (env₂ : GetEnv) (p : Integration), env₂.custom domain = some p →
            (async_get_integrations env₂ (some c') [domain]).1 domain =
              some (.integ p) := by
  have h := asyncGetIntegrationsRun_failure env c domains domain
    hdot hmem hnd hc hcu hro
  constructor
  · simpa [async_get_integrations] using h.1
  · intro c' hc'
    have h2 : some (asyncGetIntegrationsRun env c domains).2 = some c' := by
      simpa [async_get_integrations] using hc'
    obtain rfl := Option.some.inj h2
    refine ⟨h.2, ?_⟩
    intro env₂ p hcu₂
    simpa [async_get_integrations] using
      asyncGetIntegrationsRun_custom_hit env₂ _ domain p hdot h.2 hcu₂

/-- An environment where nothing resolves at all. -/
def envMissing : GetEnv :=
  { configDirSet := true, custom := fun _ => none,
    rootOutcome := fun _ => .missing, afterWait := fun _ => none }

/-- An environment whose custom components provide hue. -/
def envCustomHue : GetEnv :=
  { configDirSet := true,
    custom := fun d => if d = "hue" then some (mkIntegration "hue" [] [])
      else none,
    rootOutcome := fun _ => .missing, afterWait := fun _ => none }

/-- Claim C2 witness: hue fails with plain Not-Found on the first call, and
the follow-up call on the returned cache re-attempts and succeeds once a
custom component provides hue. -/
theorem async_get_integrations_failure_uncached_witness :
    (async_get_integrations envMissing (some (fun _ => none)) ["hue"]).1
        "hue" = some (.exc (.notFound "hue" none)) ∧
      (async_get_integrations envCustomHue
          (some (asyncGetIntegrationsRun envMissing (fun _ => none)
            ["hue"]).2) ["hue"]).1 "hue" =
        some (.integ (mkIntegration "hue" [] [])) := by
  have h := async_get_integrations_failure_uncached envMissing
    (fun _ => none) ["hue"] "hue" (by decide) (by decide)
    (List.nodup_singleton "hue") rfl rfl
    (fun p hp => RootOutcome.noConfusion hp)
  exact ⟨h.1, (h.2 _ rfl).2 envCustomHue (mkIntegration "hue" [] []) rfl⟩

/-! ## The dependency closure (C5) -/

/-- The four invariants of a successful traversal loop, proved together by
induction on the fuel: the loaded set only grows; every direct dependency
of the current list ends up in the result; the result stays inside the
inputs plus what is reachable from the listed dependencies; and every newly
added domain has been fully expanded (each of its hard-dependency edges
leads into the result). The hcons hypothesis states registry consistency: a
resolved plugin carries the domain it was requested under. -/
theorem depsGo_ok (env : String → Option Integration)
    (hcons : ∀ d p, env d = some p → p.manifest.domain = d) (start : String) :
    ∀ (fuel : Nat) (domain : String) (deps : List String)
      (loaded loading : Finset String) (S : Finset String),
      depsGo env start fuel domain deps loaded loading = .ok S →
      loaded ⊆ S ∧ (∀ d ∈ deps, d ∈ S) ∧
        (∀ x ∈ S, x ∈ loaded ∨ ∃ d ∈ deps, x = d ∨
          Relation.TransGen (DepEdge env) d x) ∧
        (∀ a ∈ S, a ∉ loaded → ∀ e, DepEdge env a e → e ∈ S) := by
  intro fuel
  induction fuel with
  | zero =>
    intro domain deps loaded loading S h
    exact absurd h (by simp [depsGo])
  | succ fuel ih =>
    intro domain deps loaded loading S h
    cases deps with
    | nil =>
      have hS : loaded = S := by simpa [depsGo] using h
      subst hS
      refine ⟨Finset.Subset.refl _, ?_, ?_, ?_⟩
      · intro d hd; exact absurd hd (List.not_mem_nil d)
      · intro x hx; exact Or.inl hx
      · intro a ha hna; exact absurd ha hna
    | cons d rest =>
      simp only [depsGo] at h
      by_cases hdl : d ∈ loaded
      · rw [if_pos hdl] at h
        obtain ⟨p1, p2, p3, p4⟩ := ih domain rest loaded loading S h
        refine ⟨p1, ?_, ?_, p4⟩
        · intro e he
          rcases List.mem_cons.mp he with rfl | he'
          · exact p1 hdl
          · exact p2 e he'
        · intro x hx
          rcases p3 x hx with h0 | ⟨d', hd', hc⟩
          · exact Or.inl h0
          · exact Or.inr ⟨d', List.mem_cons_of_mem d hd', hc⟩
      · rw [if_neg hdl] at h
        by_cases hdg : d ∈ loading
        · rw [if_pos hdg] at h; exact Except.noConfusion h
        · rw [if_neg hdg] at h
          cases henv : env d with
          | none =>
            rw [henv] at h
            exact Except.noConfusion h
          | some p =>
            rw [henv] at h
            dsimp only at h
            have hpd : p.manifest.domain = d := hcons d p henv
            by_cases haft : start ∈ p.manifest.after_dependencies
            · rw [if_pos haft] at h; exact Except.noConfusion h
            · rw [if_neg haft] at h
              by_cases hemp : p.manifest.dependencies.isEmpty
              · rw [if_pos hemp] at h
                have hnil : p.manifest.dependencies = [] := by
                  cases hl : p.manifest.dependencies with
                  | nil => rfl
                  | cons a as => rw [hl] at hemp; simp at hemp
                obtain ⟨p1, p2, p3, p4⟩ :=
                  ih domain rest (insert d loaded) loading S h
                refine ⟨(Finset.subset_insert d loaded).trans p1, ?_, ?_, ?_⟩
                · intro e he
                  rcases List.mem_cons.mp he with rfl | he'
                  · exact p1 (Finset.mem_insert_self _ loaded)
                  · exact p2 e he'
                · intro x hx
                  rcases p3 x hx with h0 | ⟨d', hd', hc⟩
                  · rcases Finset.mem_insert.mp h0 with rfl | h1
                    · exact Or.inr ⟨x, List.mem_cons_self x rest, Or.inl rfl⟩
                    · exact Or.inl h1
                  · exact Or.inr ⟨d', List.mem_cons_of_mem d hd', hc⟩
                · intro a ha hna e hedge
                  by_cases had : a = d
                  · subst had
                    obtain ⟨p', hp', hmem⟩ := hedge
                    rw [henv] at hp'
                    obtain rfl := Option.some.inj hp'
                    rw [hnil] at hmem
                    exact absurd hmem (List.not_mem_nil e)
                  · exact p4 a ha
                      (fun hh => (Finset.mem_insert.mp hh).elim had hna)
                      e hedge
              · rw [if_neg hemp] at h
                rw [hpd] at h
                cases hinner : depsGo env start fuel d p.manifest.dependencies
                    (insert d loaded) (insert d loading) with
                | error e =>
                  rw [hinner] at h
                  exact Except.noConfusion h
                | ok l₂ =>
                  rw [hinner] at h
                  dsimp only at h
                  obtain ⟨q1, q2, q3, q4⟩ := ih d p.manifest.dependencies
                    (insert d loaded) (insert d loading) l₂ hinner
                  obtain ⟨r1, r2, r3, r4⟩ :=
                    ih domain rest (insert d l₂) loading S h
                  have hdS : d ∈ S := r1 (Finset.mem_insert_self d l₂)
                  have hl2S : l₂ ⊆ S := (Finset.subset_insert d l₂).trans r1
                  have hedged : ∀ e ∈ p.manifest.dependencies,
                      DepEdge env d e := fun e he => ⟨p, henv, he⟩
                  refine ⟨?_, ?_, ?_, ?_⟩
                  · exact (Finset.subset_insert d loaded).trans (q1.trans hl2S)
                  · intro e he
                    rcases List.mem_cons.mp he with rfl | he'
                    · exact hdS
                    · exact r2 e he'
                  · intro x hx
                    rcases r3 x hx with h0 | ⟨d', hd', hc⟩
                    · rcases Finset.mem_insert.mp h0 with rfl | h1
                      · exact Or.inr ⟨x, List.mem_cons_self x rest, Or.inl rfl⟩
                      · rcases q3 x h1 with h2 | ⟨e, he, hc2⟩
                        · rcases Finset.mem_insert.mp h2 with rfl | h3
                          · exact Or.inr
                              ⟨x, List.mem_cons_self x rest, Or.inl rfl⟩
                          · exact Or.inl h3
                        · refine Or.inr
                            ⟨d, List.mem_cons_self d rest, Or.inr ?_⟩
                          rcases hc2 with rfl | htg
                          · exact Relation.TransGen.single (hedged x he)
                          · exact Relation.TransGen.head (hedged e he) htg
                    · exact Or.inr ⟨d', List.mem_cons_of_mem d hd', hc⟩
                  · intro a ha hna e hedge
                    by_cases haS : a ∈ insert d l₂
                    · rcases Finset.mem_insert.mp haS with rfl | hal
                      · obtain ⟨p', hp', hmem⟩ := hedge
                        rw [henv] at hp'
                        obtain rfl := Option.some.inj hp'
                        exact hl2S (q2 e hmem)
                      · by_cases had : a = d
                        · subst had
                          obtain ⟨p', hp', hmem⟩ := hedge
                          rw [henv] at hp'
                          obtain rfl := Option.some.inj hp'
                          exact hl2S (q2 e hmem)
                        · exact hl2S (q4 a hal
                            (fun hh => (Finset.mem_insert.mp hh).elim had hna)
                            e hedge)
                    · exact r4 a ha haS e hedge

/-- A successful top-level traversal returns, after discarding the root,
exactly the set of domains transitively reachable from the root through
hard-dependency lists. -/
theorem componentDependencies_closure (env : String → Option Integration)
    (hcons : ∀ d p, env d = some p → p.manifest.domain = d) (fuel : Nat)
    (i : Integration) (S : Finset String)
    (hroot : env i.domain = some i)
    (h : componentDependencies env fuel i = .ok S) :
    ∀ x, x ∈ S.erase i.domain ↔
      Relation.TransGen (DepEdge env) i.domain x ∧ x ≠ i.domain := by
  unfold componentDependencies at h
  cases hgo : depsGo env i.domain fuel i.domain i.dependencies ∅ {i.domain}
      with
  | error e => rw [hgo] at h; exact Except.noConfusion h
  | ok S₀ =>
    rw [hgo] at h
    injection h with h
    subst h
    obtain ⟨p1, p2, p3, p4⟩ := depsGo_ok env hcons i.domain fuel i.domain
      i.dependencies ∅ {i.domain} S₀ hgo
    intro x
    constructor
    · intro hx
      obtain ⟨hxne, hxS⟩ := Finset.mem_erase.mp hx
      have hxS₀ : x ∈ S₀ := by
        rcases Finset.mem_insert.mp hxS with hh | hh
        · exact absurd hh hxne
        · exact hh
      rcases p3 x hxS₀ with h0 | ⟨d, hd, hc⟩
      · exact absurd h0 (Finset.not_mem_empty x)
      · have hedge : DepEdge env i.domain d := ⟨i, hroot, hd⟩
        rcases hc with rfl | htg
        · exact ⟨Relation.TransGen.single hedge, hxne⟩
        · exact ⟨Relation.TransGen.head hedge htg, hxne⟩
    · rintro ⟨htg, hxne⟩
      have key : ∀ y, Relation.TransGen (DepEdge env) i.domain y →
          y ∈ S₀ ∨ y = i.domain := by
        intro y hy
        induction hy with
        | single hd =>
          obtain ⟨p', hp', hmem⟩ := hd
          rw [hroot] at hp'
          obtain rfl := Option.some.inj hp'
          exact Or.inl (p2 _ hmem)
        | @tail b c hab hbc ihy =>
          rcases ihy with hb | hb
          · by_cases hbr : b = i.domain
            · subst hbr
              obtain ⟨p', hp', hmem⟩ := hbc
              rw [hroot] at hp'
              obtain rfl := Option.some.inj hp'
              exact Or.inl (p2 _ hmem)
            · exact Or.inl
                (p4 b hb (Finset.not_mem_empty b) c hbc)
          · subst hb
            obtain ⟨p', hp', hmem⟩ := hbc
            rw [hroot] at hp'
            obtain rfl := Option.some.inj hp'
            exact Or.inl (p2 _ hmem)
      rcases key x htg with h1 | h1
      · exact Finset.mem_erase.mpr ⟨hxne, Finset.mem_insert.mpr (Or.inr h1)⟩
      · exact absurd h1 hxne

/-- Claim C5: for every plugin whose dependency resolution succeeds, the
stored all_dependencies set contains exactly the domains transitively
reachable from the plugin through hard-dependency lists, and never the
plugin's own domain. The hypotheses state that the registry view is
consistent (each resolved plugin carries its requested domain, and the
plugin's own domain resolves to itself). -/
theorem resolve_dependencies_closure (env : String → Option Integration)
    (hcons : ∀ d p, env d = some p → p.manifest.domain = d) (fuel : Nat)
    (pkg_path file_path : String) (m : Manifest) (st' : DepState)
    (S : Finset String)
    (hroot : env (Integration.init pkg_path file_path m).1.domain =
      some (Integration.init pkg_path file_path m).1)
    (hres : Integration.resolve_dependencies env fuel
        (Integration.init pkg_path file_path m).1
        (Integration.init pkg_path file_path m).2 = (true, st'))
    (hS : st'.allDeps = some S) :
    ∀ x, x ∈ S ↔
      Relation.TransGen (DepEdge env)
          (Integration.init pkg_path file_path m).1.domain x ∧
        x ≠ (Integration.init pkg_path file_path m).1.domain := by
  by_cases hemp : m.dependencies.isEmpty
  · have hnil : m.dependencies = [] := by
      cases hl : m.dependencies with
      | nil => rfl
      | cons a as => rw [hl] at hemp; simp at hemp
    have hst : (Integration.init pkg_path file_path m).2 =
        { resolved := some true, allDeps := some ∅ } := by
      simp [Integration.init, hemp]
    rw [hst] at hres
    simp only [Integration.resolve_dependencies] at hres
    injection hres with h1 h2
    subst h2
    obtain rfl := Option.some.inj hS
    intro x
    refine iff_of_false (Finset.not_mem_empty x) ?_
    rintro ⟨htg, -⟩
    induction htg with
    | single hd =>
      obtain ⟨p', hp', hmem⟩ := hd
      rw [hroot] at hp'
      obtain rfl := Option.some.inj hp'
      rw [show (Integration.init pkg_path file_path m).1.manifest.dependencies
          = m.dependencies from rfl, hnil] at hmem
      exact absurd hmem (List.not_mem_nil _)
    | tail hab hbc ihy => exact ihy
  · have hst : (Integration.init pkg_path file_path m).2 =
        { resolved := none, allDeps := none } := by
      simp [Integration.init, hemp]
    rw [hst] at hres
    simp only [Integration.resolve_dependencies] at hres
    cases hcd : componentDependencies env fuel
        (Integration.init pkg_path file_path m).1 with
    | error e =>
      rw [hcd] at hres
      exact absurd (congrArg Prod.fst hres) (by simp)
    | ok deps =>
      rw [hcd] at hres
      injection hres with h1 h2
      subst h2
      obtain rfl := Option.some.inj hS
      exact componentDependencies_closure env hcons fuel _ deps hroot hcd

/-- The manifests of the linear dependency chain a -> (b, c), b -> c. -/
def mChainA : Manifest :=
  { domain := "a", name := "a", dependencies := ["b", "c"],
    after_dependencies := [], requirements := [], config_flow := none,
    version := none, is_built_in := none }

def mChainB : Manifest :=
  { domain := "b", name := "b", dependencies := ["c"],
    after_dependencies := [], requirements := [], config_flow := none,
    version := none, is_built_in := none }

def mChainC : Manifest :=
  { domain := "c", name := "c", dependencies := [],
    after_dependencies := [], requirements := [], config_flow := none,
    version := none, is_built_in := none }

def intChainA : Integration :=
  (Integration.init "homeassistant.components.a" "components/a" mChainA).1

def intChainB : Integration :=
  (Integration.init "homeassistant.components.b" "components/b" mChainB).1

def intChainC : Integration :=
  (Integration.init "homeassistant.components.c" "components/c" mChainC).1

def envChain : String → Option Integration := fun d =>
  if d = "a" then some intChainA
  else if d = "b" then some intChainB
  else if d = "c" then some intChainC
  else none

/-- Claim C5 witness: resolving a in the chain a -> (b, c), b -> c stores a
set whose membership at b coincides with reachability from a. -/
theorem resolve_dependencies_closure_witness :
    "b" ∈ (((Integration.resolve_dependencies envChain 9 intChainA
        (Integration.init "homeassistant.components.a" "components/a"
          mChainA).2).2.allDeps).getD ∅) ↔
      Relation.TransGen (DepEdge envChain) intChainA.domain "b" ∧
        "b" ≠ intChainA.domain := by
  have hcons : ∀ d p, envChain d = some p → p.manifest.domain = d := by
    intro d p hp
    by_cases h1 : d = "a"
    · subst h1
      rw [show envChain "a" = some intChainA from rfl] at hp
      obtain rfl := Option.some.inj hp
      rfl
    · by_cases h2 : d = "b"
      · subst h2
        rw [show envChain "b" = some intChainB from rfl] at hp
        obtain rfl := Option.some.inj hp
        rfl
      · by_cases h3 : d = "c"
        · subst h3
          rw [show envChain "c" = some intChainC from rfl] at hp
          obtain rfl := Option.some.inj hp
          rfl
        · rw [show envChain d = (if d = "a" then some intChainA
              else if d = "b" then some intChainB
              else if d = "c" then some intChainC else none) from rfl,
            if_neg h1, if_neg h2, if_neg h3] at hp
          exact Option.noConfusion hp
  have hres1 : (Integration.resolve_dependencies envChain 9 intChainA
      (Integration.init "homeassistant.components.a" "components/a"
        mChainA).2).1 = true := rfl
  have hres : Integration.resolve_dependencies envChain 9 intChainA
      (Integration.init "homeassistant.components.a" "components/a"
        mChainA).2 =
      (true, (Integration.resolve_dependencies envChain 9 intChainA
        (Integration.init "homeassistant.components.a" "components/a"
          mChainA).2).2) :=
    Prod.ext_iff.mpr ⟨hres1, rfl⟩
  have hS : (Integration.resolve_dependencies envChain 9 intChainA
      (Integration.init "homeassistant.components.a" "components/a"
        mChainA).2).2.allDeps =
      some (((Integration.resolve_dependencies envChain 9 intChainA
        (Integration.init "homeassistant.components.a" "components/a"
          mChainA).2).2.allDeps).getD ∅) := rfl
  exact resolve_dependencies_closure envChain hcons 9
    "homeassistant.components.a" "components/a" mChainA _ _ rfl hres hS "b"

/-- A concrete manifest used in counterexamples. -/
def manifestHue : Manifest :=
  { domain := "hue", name := "Philips Hue", dependencies := [],
    after_dependencies := [], requirements := [], config_flow := some true,
    version := none, is_built_in := none }

/-- Claim C9 counterexample: constructing an Integration does not leave the
manifest unchanged — __init__ writes the is_built_in flag into it. For a
manifest whose is_built_in key is absent, the stored manifest differs from
the parsed one. -/
theorem integration_init_mutates_manifest :
    (Integration.init "homeassistant.components.hue" "components/hue"
        manifestHue).1.manifest ≠ manifestHue ∧
      (Integration.init "homeassistant.components.hue" "components/hue"
          manifestHue).1.manifest.is_built_in = some true ∧
      manifestHue.is_built_in = none := by
  refine ⟨?_, rfl, rfl⟩
  intro h
  have h2 := congrArg Manifest.is_built_in h
  rw [show (Integration.init "homeassistant.components.hue" "components/hue"
      manifestHue).1.manifest.is_built_in = some true from rfl] at h2
  exact Option.noConfusion h2

/-- Claim C9 amended: constructing an Integration from a parsed manifest
leaves every field of the manifest unchanged except is_built_in, which is
written into the manifest at construction time with the value derived from
the package path; the is_built_in property itself is derived from the
package path (not read back from the manifest). -/
theorem integration_init_manifest_fields (pkg_path file_path : String)
    (m : Manifest) :
    (Integration.init pkg_path file_path m).1.manifest.domain = m.domain ∧
    (Integration.init pkg_path file_path m).1.manifest.name = m.name ∧
    (Integration.init pkg_path file_path m).1.manifest.dependencies =
      m.dependencies ∧
    (Integration.init pkg_path file_path m).1.manifest.after_dependencies =
      m.after_dependencies ∧
    (Integration.init pkg_path file_path m).1.manifest.requirements =
      m.requirements ∧
    (Integration.init pkg_path file_path m).1.manifest.config_flow =
      m.config_flow ∧
    (Integration.init pkg_path file_path m).1.manifest.version = m.version ∧
    (Integration.init pkg_path file_path m).1.manifest.is_built_in =
      some (Integration.is_built_in (Integration.init pkg_path file_path m).1) ∧
    Integration.is_built_in (Integration.init pkg_path file_path m).1 =
      strStartsWith pkg_path PACKAGE_BUILTIN := by
  refine ⟨rfl, rfl, rfl, rfl, rfl, rfl, rfl, rfl, rfl⟩
